import Mathlib

/-
Shallow embedding of the EDM synthesis core of the ml-sync repository:
the drum pattern grid model (src/src/models/drum_pattern_generator.py),
the oscillator / ADSR / effects primitives (src/src/models/edm_synthesizer.py),
and the arrangement engine generate_edm_local (src/api_server.py).

Real-valued float computations are modelled over ℚ; transcendental library
functions (np.sin, np.tanh, np.exp, scipy waveform shapes) are passed in as
explicit function parameters, and the two pseudo-random sources of the code
(the seeded `random` module and the UNSEEDED numpy global generator) are
modelled as explicit value streams.
-/

namespace MLSync

/-- Python `int(x)` on a float: truncation toward zero. -/
def pyInt (q : ℚ) : ℤ := if 0 ≤ q then ⌊q⌋ else ⌈q⌉

/-- The i-th of the n values of `np.linspace(a, b, n)` (endpoint included;
for n = 1 numpy returns `[a]`). -/
def linspaceVal (a b : ℚ) (n : ℕ) (i : ℕ) : ℚ :=
  if n ≤ 1 then a else a + (b - a) * i / ((n : ℚ) - 1)

/-! ## Drum pattern model (drum_pattern_generator.py) -/

/-- `DrumType` integer values. -/
def KICK : ℕ := 0
def SNARE : ℕ := 1
def CLAP : ℕ := 2
def HIHAT_CLOSED : ℕ := 3
def HIHAT_OPEN : ℕ := 4
def CRASH : ℕ := 5
def RIDE : ℕ := 6
def TOM_HIGH : ℕ := 7
def TOM_MID : ℕ := 8
def TOM_LOW : ℕ := 9
def PERCUSSION : ℕ := 10

/-- `DrumPattern`: a steps × numDrums velocity grid, represented as a total
function that is zero outside the allocated rectangle. -/
structure DrumPattern where
  steps : ℕ
  numDrums : ℕ
  grid : ℕ → ℕ → ℤ

/-- `DrumPattern(steps, num_drums)`: zeroed grid. -/
def DrumPattern.init (steps numDrums : ℕ) : DrumPattern :=
  ⟨steps, numDrums, fun _ _ => 0⟩

/-- Raw cell write `pattern.grid[s, d] = v`. -/
def gridSet (p : DrumPattern) (s d : ℕ) (v : ℤ) : DrumPattern :=
  { p with grid := fun s' d' => if s' = s ∧ d' = d then v else p.grid s' d' }

/-- `add_hit(step, drum_type, velocity)`: clamps the velocity to [0,127],
no-op when the step is out of range. -/
def addHit (p : DrumPattern) (s : ℤ) (dt : ℕ) (v : ℤ) : DrumPattern :=
  if 0 ≤ s ∧ s < (p.steps : ℤ) then gridSet p s.toNat dt (min (max v 0) 127) else p

/-- `remove_hit(step, drum_type)`. -/
def removeHit (p : DrumPattern) (s : ℤ) (dt : ℕ) : DrumPattern :=
  if 0 ≤ s ∧ s < (p.steps : ℤ) then gridSet p s.toNat dt 0 else p

/-- `get_hits()`: all non-zero cells in step-major order, as
(step, drum type, velocity) triples. -/
def getHits (p : DrumPattern) : List (ℕ × ℕ × ℤ) :=
  (List.range p.steps).flatMap (fun s =>
    (List.range p.numDrums).filterMap (fun d =>
      if 0 < p.grid s d then some (s, d, p.grid s d) else none))

/-! ### EDMPatternLibrary constructors.  Calls of `random.random()` and
`random.randint(...)` are modelled by explicit streams (`ℕ → ℚ`, `ℕ → ℤ`)
indexed by the loop variable. -/

/-- `four_on_floor(steps, accent_every)`. -/
def fourOnFloor (steps accentEvery : ℕ) : DrumPattern :=
  (List.range steps).foldl (fun p i =>
    if i % 4 = 0 then
      addHit p i KICK (if (i / 4) % accentEvery = 0 then 127 else 100)
    else p) (DrumPattern.init steps 11)

/-- `syncopated_hihat(steps, density)`; `r1 r2 r3` model the three loops'
`random.random()` draws and `v1 v2` their `random.randint` draws. -/
def syncopatedHihat (steps : ℕ) (density : ℚ) (r1 r2 r3 : ℕ → ℚ)
    (v1 v2 : ℕ → ℤ) : DrumPattern :=
  let p0 := DrumPattern.init steps 11
  let p1 := (List.range steps).foldl (fun p i =>
    if i % 2 = 0 ∧ r1 i < density then addHit p i HIHAT_CLOSED (v1 i) else p) p0
  let p2 := (List.range steps).foldl (fun p i =>
    if i % 4 = 1 ∧ r2 i < density * (6/10) then addHit p i HIHAT_CLOSED (v2 i) else p) p1
  (List.range steps).foldl (fun p i =>
    if i % 8 = 6 ∧ r3 i < (4/10) then addHit p i HIHAT_OPEN 80 else p) p2

/-- `snare_clap_pattern(steps)`. -/
def snareClapPattern (steps : ℕ) : DrumPattern :=
  [(4 : ℤ), 12].foldl (fun p i => addHit (addHit p i SNARE 110) i CLAP 90)
    (DrumPattern.init steps 11)

/-- `build_up_pattern(steps)`; `r` models the hi-hat `random.random()` draws. -/
def buildUpPattern (steps : ℕ) (r : ℕ → ℚ) : DrumPattern :=
  let body := fun (p : DrumPattern) (i : ℕ) =>
    let progress : ℚ := (i : ℚ) / (steps : ℚ)
    let p := if i % 4 = 0 then addHit p i KICK (pyInt (80 + progress * 47)) else p
    let p := if steps / 2 ≤ i ∧ i % 2 = 0 then
      addHit p i SNARE (pyInt (60 + progress * 67)) else p
    if r i < progress then addHit p i HIHAT_CLOSED (pyInt (40 + progress * 60)) else p
  addHit ((List.range steps).foldl body (DrumPattern.init steps 11))
    ((steps : ℤ) - 1) CRASH 127

/-- `drop_pattern(steps)`. -/
def dropPattern (steps : ℕ) : DrumPattern :=
  let p0 := (List.range steps).foldl (fun p i =>
    if i % 4 = 0 then addHit p i KICK 127 else p) (DrumPattern.init steps 11)
  let p1 := addHit (addHit p0 4 SNARE 120) 12 SNARE 120
  let p2 := (List.range steps).foldl (fun p i =>
    if i % 2 = 0 then addHit p i HIHAT_CLOSED 100 else p) p1
  addHit p2 0 CRASH 120

/-- `breakbeat(steps)`; `v1 v2 v3` model the `random.randint` draws. -/
def breakbeat (steps : ℕ) (v1 v2 v3 : ℕ → ℤ) : DrumPattern :=
  let p0 := [0, 6, 11].foldl (fun p st =>
    if st < steps then addHit p st KICK (v1 st) else p) (DrumPattern.init steps 11)
  let p1 := [4, 10, 12].foldl (fun p st =>
    if st < steps then addHit p st SNARE (v2 st) else p) p0
  [0, 2, 4, 6, 8, 10, 12, 14].foldl (fun p st =>
    if st < steps then addHit p st HIHAT_CLOSED (v3 st) else p) p1

/-- One iteration of the `combine_patterns` inner loop: keep the maximum
velocity when several hits land on the same cell. -/
def combineStep (c : DrumPattern) (h : ℕ × ℕ × ℤ) : DrumPattern :=
  if h.1 < c.steps then gridSet c h.1 h.2.1 (max (c.grid h.1 h.2.1) h.2.2) else c

/-- Merge one pattern's hits into the accumulating combined pattern. -/
def combineInto (c p : DrumPattern) : DrumPattern :=
  (getHits p).foldl combineStep c

/-- Largest step count among the input patterns. -/
def maxSteps (ps : List DrumPattern) : ℕ := ps.foldl (fun m p => max m p.steps) 0

/-- `combine_patterns(*patterns)`. -/
def combinePatterns (ps : List DrumPattern) : DrumPattern :=
  match ps with
  | [] => DrumPattern.init 16 11
  | _ => ps.foldl combineInto (DrumPattern.init (maxSteps ps) 11)

/-! ### PatternVariation operators -/

/-- `random.choice([TOM_HIGH, TOM_MID, TOM_LOW])`. -/
def tomOf : Fin 3 → ℕ
  | 0 => TOM_HIGH
  | 1 => TOM_MID
  | 2 => TOM_LOW

/-- `add_fills(pattern, fill_probability)`; `r` and `tom`/`v` model the random
draws of the 4-step tail loop. -/
def addFills (pat : DrumPattern) (prob : ℚ) (r : ℕ → ℚ) (tom : ℕ → Fin 3)
    (v : ℕ → ℤ) : DrumPattern :=
  let varied : DrumPattern := ⟨pat.steps, 11, pat.grid⟩
  (List.range 4).foldl (fun p k =>
    if r k < prob then addHit p ((pat.steps : ℤ) - 4 + k) (tomOf (tom k)) (v k) else p)
    varied

/-- `velocity_variation(pattern, variation_amount)`; `r` models the
`random.random()` draw for each hit of `get_hits()`, in order. -/
def velocityVariation (pat : DrumPattern) (amount : ℚ) (r : ℕ → ℚ) : DrumPattern :=
  ((getHits pat).enum.foldl (fun p ih =>
    let h := ih.2
    let variation := pyInt ((h.2.2 : ℚ) * amount * (r ih.1 * 2 - 1))
    let newVel := max 20 (min 127 (h.2.2 + variation))
    addHit p h.1 h.2.1 newVel) (DrumPattern.init pat.steps 11))

/-- `shift_pattern(pattern, shift)`: `np.roll` on the step axis. -/
def shiftPattern (pat : DrumPattern) (shift : ℤ) : DrumPattern :=
  ⟨pat.steps, 11, fun s d =>
    if s < pat.steps then pat.grid ((((s : ℤ) - shift) % (pat.steps : ℤ)).toNat) d
    else 0⟩

/-- `reverse_pattern(pattern)`: `np.flip` on the step axis. -/
def reversePattern (pat : DrumPattern) : DrumPattern :=
  ⟨pat.steps, 11, fun s d => if s < pat.steps then pat.grid (pat.steps - 1 - s) d else 0⟩

/-- Patterns reachable through the constructor, the library constructors,
the variation operators, `combine_patterns`, and `add_hit`/`remove_hit`. -/
inductive Reachable : DrumPattern → Prop
  | init (steps numDrums : ℕ) : Reachable (DrumPattern.init steps numDrums)
  | addHit (p : DrumPattern) (s : ℤ) (dt : ℕ) (v : ℤ) :
      Reachable p → Reachable (addHit p s dt v)
  | removeHit (p : DrumPattern) (s : ℤ) (dt : ℕ) :
      Reachable p → Reachable (removeHit p s dt)
  | fourOnFloor (steps accentEvery : ℕ) : Reachable (fourOnFloor steps accentEvery)
  | syncopatedHihat (steps : ℕ) (density : ℚ) (r1 r2 r3 : ℕ → ℚ) (v1 v2 : ℕ → ℤ) :
      Reachable (syncopatedHihat steps density r1 r2 r3 v1 v2)
  | snareClapPattern (steps : ℕ) : Reachable (snareClapPattern steps)
  | buildUpPattern (steps : ℕ) (r : ℕ → ℚ) : Reachable (buildUpPattern steps r)
  | dropPattern (steps : ℕ) : Reachable (dropPattern steps)
  | breakbeat (steps : ℕ) (v1 v2 v3 : ℕ → ℤ) : Reachable (breakbeat steps v1 v2 v3)
  | combine (ps : List DrumPattern) :
      (∀ p ∈ ps, Reachable p) → Reachable (combinePatterns ps)
  | addFills (pat : DrumPattern) (prob : ℚ) (r : ℕ → ℚ) (tom : ℕ → Fin 3) (v : ℕ → ℤ) :
      Reachable pat → Reachable (addFills pat prob r tom v)
  | velocityVariation (pat : DrumPattern) (amount : ℚ) (r : ℕ → ℚ) :
      Reachable pat → Reachable (velocityVariation pat amount r)
  | shiftPattern (pat : DrumPattern) (shift : ℤ) :
      Reachable pat → Reachable (shiftPattern pat shift)
  | reversePattern (pat : DrumPattern) :
      Reachable pat → Reachable (reversePattern pat)

/-- The pattern range invariant: every grid cell's velocity lies in [0,127]. -/
def VelOK (p : DrumPattern) : Prop := ∀ s d, 0 ≤ p.grid s d ∧ p.grid s d ≤ 127

/-! ## Waveform primitives (edm_synthesizer.py) -/

/-- `WaveformType` enum. -/
inductive WaveformType
  | sine
  | square
  | saw
  | triangle
  | noise

/-- Number of samples of `np.linspace(0, duration, int(sample_rate * duration),
endpoint=False)`. -/
def oscSamples (sr : ℕ) (dur : ℚ) : ℕ := (pyInt ((sr : ℚ) * dur)).toNat

/-- The i-th time point of that `linspace` (endpoint excluded, step dur/n). -/
def tVal (sr : ℕ) (dur : ℚ) (i : ℕ) : ℚ := dur * i / (oscSamples sr dur : ℚ)

/-- `Oscillator.generate(frequency, duration, waveform, phase)`.

`piQ` stands for the float constant `np.pi`; `sinF`, `sqF`, `sawF`, `triF`
stand for `np.sin`, `scipy.signal.square`, `scipy.signal.sawtooth` and
`scipy.signal.sawtooth(·, width=0.5)`; `noiseS` is the stream of
`np.random.uniform(-1, 1)` draws of the UNSEEDED numpy global generator
(which `random.seed(seed)` in the engine does not touch). -/
def oscGenerate (sr : ℕ) (piQ : ℚ) (sinF sqF sawF triF : ℚ → ℚ) (noiseS : ℕ → ℚ)
    (frequency dur phase : ℚ) (w : WaveformType) : List ℚ :=
  let n := oscSamples sr dur
  match w with
  | .sine => (List.range n).map (fun i => sinF (2 * piQ * frequency * tVal sr dur i + phase))
  | .square => (List.range n).map (fun i => sqF (2 * piQ * frequency * tVal sr dur i + phase))
  | .saw => (List.range n).map (fun i => sawF (2 * piQ * frequency * tVal sr dur i + phase))
  | .triangle => (List.range n).map (fun i => triF (2 * piQ * frequency * tVal sr dur i + phase))
  | .noise => (List.range n).map noiseS

/-- Attack segment of `ADSR.generate`: `envelope[:attack_samples] =
np.linspace(0, 1, attack_samples)` (when `attack_samples > 0`). -/
def adsrEnv1 (aS : ℕ) : ℕ → ℚ :=
  fun i => if 0 < aS ∧ i < aS then linspaceVal 0 1 aS i else 0

/-- Decay segment overlay: `envelope[decay_start:decay_end] =
np.linspace(1, sustain, decay_samples)` guarded by `decay_samples > 0 and
decay_end < num_samples`. -/
def adsrEnv2 (aS dS num : ℕ) (sustain : ℚ) : ℕ → ℚ :=
  fun i => if 0 < dS ∧ aS + dS < num ∧ aS ≤ i ∧ i < aS + dS then
    linspaceVal 1 sustain dS (i - aS)
  else adsrEnv1 aS i

/-- Sustain segment overlay, guarded by `decay_end < sustain_end < num_samples`. -/
def adsrEnv3 (aS dS sEnd num : ℕ) (sustain : ℚ) : ℕ → ℚ :=
  fun i => if aS + dS < sEnd ∧ sEnd < num ∧ aS + dS ≤ i ∧ i < sEnd then sustain
  else adsrEnv2 aS dS num sustain i

/-- `start_level = envelope[release_start - 1] if release_start > 0 else sustain`,
read before the release segment is written. -/
def adsrStartLevel (aS dS sEnd num : ℕ) (sustain : ℚ) : ℚ :=
  if 0 < sEnd then adsrEnv3 aS dS sEnd num sustain (sEnd - 1) else sustain

/-- Release segment overlay: `envelope[release_start:release_end] =
np.linspace(start_level, 0, release_end - release_start)` guarded by
`release_samples > 0 and release_start < num_samples`. -/
def adsrEnv4 (aS dS rS sEnd num : ℕ) (sustain : ℚ) : ℕ → ℚ :=
  fun i => if 0 < rS ∧ sEnd < num ∧ sEnd ≤ i ∧ i < min (sEnd + rS) num then
    linspaceVal (adsrStartLevel aS dS sEnd num sustain) 0 (min (sEnd + rS) num - sEnd)
      (i - sEnd)
  else adsrEnv3 aS dS sEnd num sustain i

/-- `ADSR.generate(duration, note_duration)`.  Returns `none` exactly when the
numpy assignment `envelope[:attack_samples] = np.linspace(0, 1, attack_samples)`
raises a broadcast error, i.e. when `attack_samples` exceeds `num_samples`. -/
def adsrGenerate (attack decay sustain release : ℚ) (sr : ℕ)
    (duration noteDur : ℚ) : Option (List ℚ) :=
  let num := (pyInt ((sr : ℚ) * duration)).toNat
  let aS := (pyInt (attack * (sr : ℚ))).toNat
  let dS := (pyInt (decay * (sr : ℚ))).toNat
  let rS := (pyInt (release * (sr : ℚ))).toNat
  let sEnd := (pyInt (noteDur * (sr : ℚ))).toNat
  if 0 < aS ∧ num < aS then none
  else some ((List.range num).map (adsrEnv4 aS dS rS sEnd num sustain))

/-! ## Effects (EffectsProcessor) -/

/-- The gain loop of `sidechain_compress`: starting from `current_gain = 1.0`,
one smoothed gain value per envelope sample.  `expF` stands for `np.exp`;
`thr`, `rat` are the threshold and compression ratio, `aS`/`rS` the attack and
release sample counts. -/
def sidechainGain (expF : ℚ → ℚ) (thr rat : ℚ) (aS rS : ℕ) :
    ℚ → List ℚ → List ℚ
  | _, [] => []
  | cur, e :: rest =>
    let target := if thr < e then max (1/10) (1 - (e - thr) / rat) else 1
    let alphaA : ℚ := if 0 < aS then 1 - expF (-1 / (aS : ℚ)) else 1
    let alphaR : ℚ := if 0 < rS then 1 - expF (-1 / (rS : ℚ)) else 1
    let alpha := if target < cur then alphaA else alphaR
    let g := cur * (1 - alpha) + target * alpha
    g :: sidechainGain expF thr rat aS rS g rest

/-- `EffectsProcessor.sidechain_compress(audio, trigger, threshold, ratio,
attack, release)`: both inputs are first cut to their common length, then the
audio is multiplied by the smoothed gain envelope. -/
def sidechainCompress (expF : ℚ → ℚ) (sr : ℕ) (audio trigger : List ℚ)
    (thr rat attack release : ℚ) : List ℚ :=
  let minLen := min audio.length trigger.length
  let audioCut := audio.take minLen
  let triggerCut := trigger.take minLen
  let env := triggerCut.map (fun x => |x|)
  let aS := (pyInt (attack * (sr : ℚ))).toNat
  let rS := (pyInt (release * (sr : ℚ))).toNat
  List.zipWith (· * ·) audioCut (sidechainGain expF thr rat aS rS 1 env)

/-! ## Arrangement engine (generate_edm_local in api_server.py) -/

/-- Tempo forcing: `raw_tempo *= 2` when below 100, then
`max(130, min(180, int(raw_tempo)))`. -/
def forcedTempo (t : ℚ) : ℤ :=
  let raw := if t < 100 then t * 2 else t
  max 130 (min 180 (pyInt raw))

/-- The descriptor-derived part of the `SynthConfig` the engine builds. -/
structure SynthConfigD where
  tempo : ℤ
  energy : ℚ
  valence : ℚ
  danceability : ℚ

/-- `SynthConfig(tempo=..., energy=max(0.7, f["energy"]), valence=f["valence"],
danceability=max(0.7, f["danceability"]))` as built by `generate_edm_local`. -/
def mkSynthConfig (tempoIn energy valence dance : ℚ) : SynthConfigD :=
  { tempo := forcedTempo tempoIn
    energy := max (7/10) energy
    valence := valence
    danceability := max (7/10) dance }

/-- A note event handed to `synthesize_midi_notes`:
(MIDI note, start time, duration, velocity). -/
def NoteT : Type := ℤ × ℚ × ℚ × ℚ

/-- `max(start + duration for ...)`; only used on non-empty lists. -/
def maxEndTime (notes : List NoteT) : ℚ :=
  (notes.map (fun n => n.2.1 + n.2.2.1)).foldl max 0

/-- `output[start:start+len(src)] += src`, clipped at `num` samples.
Start positions are taken non-negative, as in every engine call. -/
def addInto (out : ℕ → ℚ) (num start : ℕ) (src : List ℚ) : ℕ → ℚ :=
  fun i => if start ≤ i ∧ i < min (start + src.length) num then
    out i + src.getD (i - start) 0
  else out i

/-- `EDMSynthesizer.synthesize_midi_notes(midi_notes, synth_type)`:
empty input returns `np.array([])`; otherwise each note is rendered by the
selected voice synthesizer `synthF` and mixed into a zeroed buffer of
`int(sample_rate * max_end_time)` samples. -/
def synthesizeMidiNotes (sr : ℕ) (synthF : ℤ → ℚ → ℚ → List ℚ)
    (notes : List NoteT) : List ℚ :=
  match notes with
  | [] => []
  | _ =>
    let num := (pyInt ((sr : ℚ) * maxEndTime notes)).toNat
    let out := notes.foldl (fun acc n =>
      addInto acc num (pyInt (n.2.1 * (sr : ℚ))).toNat (synthF n.1 n.2.2.1 n.2.2.2))
      (fun _ => 0)
    (List.range num).map out

/-- The engine's per-voice buffer:
`synth.synthesize_midi_notes(notes, ...) if notes else np.zeros(1)`. -/
def voiceBuffer (sr : ℕ) (synthF : ℤ → ℚ → ℚ → List ℚ)
    (notes : List NoteT) : List ℚ :=
  match notes with
  | [] => List.replicate 1 0
  | _ => synthesizeMidiNotes sr synthF notes

/-- The engine's `pad`: zero-pad to `max_len`, else cut to `max_len`. -/
def padTo (n : ℕ) (l : List ℚ) : List ℚ :=
  if l.length < n then l ++ List.replicate (n - l.length) 0 else l.take n

/-- `pad(drum_audio) * 1.0 + pad(bass_audio) * 0.75 + pad(lead_audio) * 0.55`. -/
def mixBuffer (drum bass lead : List ℚ) : List ℚ :=
  let maxLen := max drum.length (max bass.length lead.length)
  List.zipWith (· + ·)
    (List.zipWith (· + ·) ((padTo maxLen drum).map (· * 1))
      ((padTo maxLen bass).map (· * (3/4))))
    ((padTo maxLen lead).map (· * (11/20)))

/-- `np.max(np.abs(mixed))`. -/
def peak (l : List ℚ) : ℚ := l.foldl (fun m x => max m |x|) 0

/-- `if pk > 0: mixed = mixed / pk` — the divide-by-zero guard. -/
def normalizeStage (l : List ℚ) : List ℚ :=
  if 0 < peak l then l.map (· / peak l) else l

/-- `np.tanh(mixed * 1.5) * 0.92`; `tanhF` stands for `np.tanh`. -/
def limitStage (tanhF : ℚ → ℚ) (l : List ℚ) : List ℚ :=
  l.map (fun x => tanhF (x * (3/2)) * (92/100))

/-- The whole final-mix stage of `generate_edm_local`. -/
def finalMix (tanhF : ℚ → ℚ) (drum bass lead : List ℚ) : List ℚ :=
  limitStage tanhF (normalizeStage (mixBuffer drum bass lead))

/-! ## Definitions following the claims' words (for refutation / refinement) -/

/-- The tempo mapping exactly as claim C3 words it: double below 100, then
clamp into [130,180] — with no integer truncation. -/
def claimTempoSpec (t : ℚ) : ℚ := max 130 (min 180 (if t < 100 then t * 2 else t))

/-- The amended tempo mapping: double below 100, truncate toward zero to an
integer, then clamp into [130,180]. -/
def claimTempoTrunc (t : ℚ) : ℤ :=
  max 130 (min 180 (pyInt (if t < 100 then t * 2 else t)))

/-- Clamping into [0,1], as claim C5 words it. -/
def clamp01 (x : ℚ) : ℚ := max 0 (min 1 x)

/-- Per-cell maximum velocity over a list of patterns, as claim C9 words it
(a step beyond a shorter pattern's length holds no hit, i.e. velocity 0). -/
def cellMaxSpec (ps : List DrumPattern) (s d : ℕ) : ℤ :=
  ps.foldl (fun m p => max m (if s < p.steps then p.grid s d else 0)) 0

/-- The length of a buffer as claim C7 words it: `round(sampleRate × duration)`. -/
def claimOscLenSpec (sr : ℕ) (dur : ℚ) : ℤ := round ((sr : ℚ) * dur)

/-- Witness pattern A of the C9 scenario: velocity 80 at (step 0, KICK). -/
def patA : DrumPattern := addHit (DrumPattern.init 16 11) 0 KICK 80

/-- Witness pattern B of the C9 scenario: velocity 110 at (step 0, KICK). -/
def patB : DrumPattern := addHit (DrumPattern.init 16 11) 0 KICK 110

/-! ## Helper lemmas -/

theorem getD_out {l : List ℚ} {i : ℕ} (h : l.length ≤ i) : l.getD i 0 = 0 := by
  induction l generalizing i with
  | nil => simp
  | cons a t ih =>
    cases i with
    | zero => simp at h
    | succ j => simpa using ih (by simpa using h)

theorem getD_append_left : ∀ (l r : List ℚ) (i : ℕ), i < l.length →
    (l ++ r).getD i 0 = l.getD i 0 := by
  intro l
  induction l with
  | nil => intro r i h; simp at h
  | cons a t ih =>
    intro r i h
    cases i with
    | zero => simp
    | succ j => simpa using ih r j (by simpa using h)

theorem getD_append_right : ∀ (l r : List ℚ) (i : ℕ), l.length ≤ i →
    (l ++ r).getD i 0 = r.getD (i - l.length) 0 := by
  intro l
  induction l with
  | nil => intro r i _; simp
  | cons a t ih =>
    intro r i h
    cases i with
    | zero => simp at h
    | succ j => simpa using ih r j (by simpa using h)

theorem getD_replicate0 : ∀ (k i : ℕ), (List.replicate k (0 : ℚ)).getD i 0 = 0 := by
  intro k
  induction k with
  | zero => intro i; simp
  | succ n ih =>
    intro i
    cases i with
    | zero => simp [List.replicate_succ]
    | succ j => simp [List.replicate_succ, ih j]

theorem getD_take : ∀ (l : List ℚ) (n i : ℕ), i < n →
    (l.take n).getD i 0 = l.getD i 0 := by
  intro l
  induction l with
  | nil => intro n i _; simp
  | cons a t ih =>
    intro n i h
    cases n with
    | zero => omega
    | succ m =>
      cases i with
      | zero => simp
      | succ j => simpa using ih m j (by omega)

theorem zipWith_add_getD : ∀ (a b : List ℚ), a.length = b.length → ∀ i : ℕ,
    (List.zipWith (· + ·) a b).getD i 0 = a.getD i 0 + b.getD i 0 := by
  intro a
  induction a with
  | nil => intro b h i; cases b with
    | nil => simp
    | cons x t => simp at h
  | cons x t ih =>
    intro b h i
    cases b with
    | nil => simp at h
    | cons y u =>
      cases i with
      | zero => simp
      | succ j => simpa using ih u (by simpa using h) j

theorem map_mul_getD (c : ℚ) : ∀ (l : List ℚ) (i : ℕ),
    (l.map (· * c)).getD i 0 = l.getD i 0 * c := by
  intro l
  induction l with
  | nil => intro i; simp
  | cons x t ih =>
    intro i
    cases i with
    | zero => simp
    | succ j => simpa using ih j

theorem padTo_length (n : ℕ) (l : List ℚ) : (padTo n l).length = n := by
  unfold padTo
  split
  · simp; omega
  · simp; omega

theorem padTo_getD (n : ℕ) (l : List ℚ) (i : ℕ) (h : i < n) :
    (padTo n l).getD i 0 = l.getD i 0 := by
  unfold padTo
  split
  · by_cases hi : i < l.length
    · exact getD_append_left l _ i hi
    · rw [getD_append_right l _ i (by omega), getD_replicate0, getD_out (by omega)]
  · exact getD_take l n i h

theorem padTo_single_zero : ∀ L : ℕ, padTo L [(0 : ℚ)] = List.replicate L 0 := by
  intro L
  match L with
  | 0 => simp [padTo]
  | 1 => simp [padTo]
  | (n + 2) =>
    simp only [padTo, List.length_cons, List.length_nil]
    rw [if_pos (by omega)]
    have : n + 2 - 1 = n + 1 := by omega
    rw [this, List.replicate_succ]
    simp [List.replicate_succ]

theorem sidechainGain_length (expF : ℚ → ℚ) (thr rat : ℚ) (aS rS : ℕ) :
    ∀ (l : List ℚ) (cur : ℚ),
      (sidechainGain expF thr rat aS rS cur l).length = l.length := by
  intro l
  induction l with
  | nil => intro cur; simp [sidechainGain]
  | cons e rest ih => intro cur; simp [sidechainGain, ih]

theorem pyInt_intCast (m : ℤ) : pyInt ((m : ℤ) : ℚ) = m := by
  unfold pyInt
  split <;> simp

theorem pyInt_nonneg_eq_floor {q : ℚ} (h : 0 ≤ q) : pyInt q = ⌊q⌋ := by
  unfold pyInt
  rw [if_pos h]

theorem linspaceVal_mem {a b : ℚ} (n i : ℕ) (ha0 : 0 ≤ a) (ha1 : a ≤ 1)
    (hb0 : 0 ≤ b) (hb1 : b ≤ 1) (hi : i < n) :
    0 ≤ linspaceVal a b n i ∧ linspaceVal a b n i ≤ 1 := by
  unfold linspaceVal
  split
  · exact ⟨ha0, ha1⟩
  · rename_i hn
    have hn2 : 2 ≤ n := by omega
    have hden : (0 : ℚ) < (n : ℚ) - 1 := by
      have : (2 : ℚ) ≤ (n : ℚ) := by exact_mod_cast hn2
      linarith
    set t : ℚ := (i : ℚ) / ((n : ℚ) - 1) with ht
    have ht0 : 0 ≤ t := div_nonneg (by positivity) (le_of_lt hden)
    have ht1 : t ≤ 1 := by
      rw [ht, div_le_one hden]
      have : (i : ℚ) ≤ (n : ℚ) - 1 := by
        have : (i : ℚ) + 1 ≤ (n : ℚ) := by exact_mod_cast hi
        linarith
      exact this
    have hv : a + (b - a) * i / ((n : ℚ) - 1) = a * (1 - t) + b * t := by
      rw [ht]
      field_simp
      ring
    rw [hv]
    constructor
    · have h1 : 0 ≤ a * (1 - t) := mul_nonneg ha0 (by linarith)
      have h2 : 0 ≤ b * t := mul_nonneg hb0 ht0
      linarith
    · have h1 : a * (1 - t) ≤ 1 * (1 - t) := by
        apply mul_le_mul_of_nonneg_right ha1 (by linarith)
      have h2 : b * t ≤ 1 * t := mul_le_mul_of_nonneg_right hb1 ht0
      linarith

theorem velOK_init (steps numDrums : ℕ) : VelOK (DrumPattern.init steps numDrums) :=
  fun _ _ => ⟨le_refl 0, by norm_num [DrumPattern.init]⟩

theorem velOK_gridSet {p : DrumPattern} {v : ℤ} (h : VelOK p) (s d : ℕ)
    (hv0 : 0 ≤ v) (hv1 : v ≤ 127) : VelOK (gridSet p s d v) := by
  intro s' d'
  dsimp [gridSet]
  split
  · exact ⟨hv0, hv1⟩
  · exact h s' d'

theorem velOK_addHit {p : DrumPattern} (h : VelOK p) (s : ℤ) (dt : ℕ) (v : ℤ) :
    VelOK (addHit p s dt v) := by
  unfold addHit
  split
  · exact velOK_gridSet h _ _ (by omega) (by omega)
  · exact h

theorem velOK_removeHit {p : DrumPattern} (h : VelOK p) (s : ℤ) (dt : ℕ) :
    VelOK (removeHit p s dt) := by
  unfold removeHit
  split
  · exact velOK_gridSet h _ _ (by omega) (by omega)
  · exact h

theorem velOK_foldl {α : Type} (f : DrumPattern → α → DrumPattern) :
    ∀ (l : List α) (p : DrumPattern), (∀ q x, x ∈ l → VelOK q → VelOK (f q x)) →
      VelOK p → VelOK (l.foldl f p) := by
  intro l
  induction l with
  | nil => intro p _ hp; simpa using hp
  | cons x t ih =>
    intro p hf hp
    simp only [List.foldl_cons]
    exact ih (f p x) (fun q y hy hq => hf q y (List.mem_cons_of_mem x hy) hq)
      (hf p x (List.mem_cons_self x t) hp)

theorem mem_getHits {p : DrumPattern} {x : ℕ × ℕ × ℤ} :
    x ∈ getHits p ↔ x.1 < p.steps ∧ x.2.1 < p.numDrums ∧
      0 < p.grid x.1 x.2.1 ∧ x.2.2 = p.grid x.1 x.2.1 := by
  unfold getHits
  simp only [List.mem_flatMap, List.mem_filterMap, List.mem_range]
  constructor
  · rintro ⟨s, hs, d, hd, hx⟩
    split at hx
    · rename_i hpos
      cases hx
      exact ⟨hs, hd, hpos, rfl⟩
    · cases hx
  · rintro ⟨h1, h2, h3, h4⟩
    refine ⟨x.1, h1, x.2.1, h2, ?_⟩
    rw [if_pos h3]
    obtain ⟨x1, x2, x3⟩ := x
    simp only at h4 ⊢
    rw [h4]

theorem velOK_fourOnFloor (steps accentEvery : ℕ) :
    VelOK (fourOnFloor steps accentEvery) := by
  unfold fourOnFloor
  refine velOK_foldl _ _ _ ?_ (velOK_init _ _)
  intro q x _ hq
  split
  · exact velOK_addHit hq _ _ _
  · exact hq

theorem velOK_syncopatedHihat (steps : ℕ) (density : ℚ) (r1 r2 r3 : ℕ → ℚ)
    (v1 v2 : ℕ → ℤ) : VelOK (syncopatedHihat steps density r1 r2 r3 v1 v2) := by
  unfold syncopatedHihat
  refine velOK_foldl _ _ _ ?_ (velOK_foldl _ _ _ ?_ (velOK_foldl _ _ _ ?_
    (velOK_init _ _))) <;>
    · intro q x _ hq
      split
      · exact velOK_addHit hq _ _ _
      · exact hq

theorem velOK_snareClapPattern (steps : ℕ) : VelOK (snareClapPattern steps) := by
  unfold snareClapPattern
  refine velOK_foldl _ _ _ ?_ (velOK_init _ _)
  intro q x _ hq
  exact velOK_addHit (velOK_addHit hq _ _ _) _ _ _

theorem velOK_buildUpPattern (steps : ℕ) (r : ℕ → ℚ) :
    VelOK (buildUpPattern steps r) := by
  unfold buildUpPattern
  refine velOK_addHit (velOK_foldl _ _ _ ?_ (velOK_init _ _)) _ _ _
  intro q x _ hq
  dsimp only
  split_ifs <;> solve_by_elim [velOK_addHit]

theorem velOK_dropPattern (steps : ℕ) : VelOK (dropPattern steps) := by
  unfold dropPattern
  refine velOK_addHit (velOK_foldl _ _ _ ?_ (velOK_addHit (velOK_addHit
    (velOK_foldl _ _ _ ?_ (velOK_init _ _)) _ _ _) _ _ _)) _ _ _ <;>
    · intro q x _ hq
      split
      · exact velOK_addHit hq _ _ _
      · exact hq

theorem velOK_breakbeat (steps : ℕ) (v1 v2 v3 : ℕ → ℤ) :
    VelOK (breakbeat steps v1 v2 v3) := by
  unfold breakbeat
  refine velOK_foldl _ _ _ ?_ (velOK_foldl _ _ _ ?_ (velOK_foldl _ _ _ ?_
    (velOK_init _ _))) <;>
    · intro q x _ hq
      split
      · exact velOK_addHit hq _ _ _
      · exact hq

theorem velOK_addFills {pat : DrumPattern} (hp : VelOK pat) (prob : ℚ)
    (r : ℕ → ℚ) (tom : ℕ → Fin 3) (v : ℕ → ℤ) :
    VelOK (addFills pat prob r tom v) := by
  unfold addFills
  refine velOK_foldl _ _ _ ?_ ?_
  · intro q x _ hq
    split
    · exact velOK_addHit hq _ _ _
    · exact hq
  · intro s d
    exact hp s d

theorem velOK_velocityVariation (pat : DrumPattern) (amount : ℚ) (r : ℕ → ℚ) :
    VelOK (velocityVariation pat amount r) := by
  unfold velocityVariation
  refine velOK_foldl _ _ _ ?_ (velOK_init _ _)
  intro q x _ hq
  exact velOK_addHit hq _ _ _

theorem velOK_shiftPattern {pat : DrumPattern} (hp : VelOK pat) (shift : ℤ) :
    VelOK (shiftPattern pat shift) := by
  intro s d
  dsimp [shiftPattern]
  split
  · exact hp _ _
  · norm_num

theorem velOK_reversePattern {pat : DrumPattern} (hp : VelOK pat) :
    VelOK (reversePattern pat) := by
  intro s d
  dsimp [reversePattern]
  split
  · exact hp _ _
  · norm_num

theorem velOK_combineStep {c p : DrumPattern} (hc : VelOK c) (hp : VelOK p)
    {x : ℕ × ℕ × ℤ} (hx : x ∈ getHits p) : VelOK (combineStep c x) := by
  unfold combineStep
  split
  · have hval := (mem_getHits.mp hx).2.2.2
    have hrange := hp x.1 x.2.1
    refine velOK_gridSet hc _ _ ?_ ?_
    · have := (hc x.1 x.2.1).1
      omega
    · have := (hc x.1 x.2.1).2
      omega
  · exact hc

theorem velOK_combineInto {c p : DrumPattern} (hc : VelOK c) (hp : VelOK p) :
    VelOK (combineInto c p) := by
  unfold combineInto
  exact velOK_foldl _ _ _ (fun q x hx hq => velOK_combineStep hq hp hx) hc

theorem velOK_combinePatterns (ps : List DrumPattern)
    (h : ∀ p ∈ ps, VelOK p) : VelOK (combinePatterns ps) := by
  unfold combinePatterns
  match ps with
  | [] => exact velOK_init _ _
  | p :: t =>
    exact velOK_foldl _ _ _ (fun q x hx hq => velOK_combineInto hq (h x hx))
      (velOK_init _ _)

theorem gridSet_grid (p : DrumPattern) (s d : ℕ) (v : ℤ) (s' d' : ℕ) :
    (gridSet p s d v).grid s' d' = if s' = s ∧ d' = d then v else p.grid s' d' := rfl

theorem combineStep_steps (c : DrumPattern) (x : ℕ × ℕ × ℤ) :
    (combineStep c x).steps = c.steps := by
  unfold combineStep
  split <;> rfl

theorem foldl_combineStep_steps : ∀ (l : List (ℕ × ℕ × ℤ)) (c : DrumPattern),
    (l.foldl combineStep c).steps = c.steps := by
  intro l
  induction l with
  | nil => intro c; rfl
  | cons x t ih =>
    intro c
    simp only [List.foldl_cons]
    rw [ih, combineStep_steps]

theorem combineInto_steps (c p : DrumPattern) : (combineInto c p).steps = c.steps :=
  foldl_combineStep_steps _ _

theorem foldl_combineInto_steps : ∀ (ps : List DrumPattern) (acc : DrumPattern),
    (ps.foldl combineInto acc).steps = acc.steps := by
  intro ps
  induction ps with
  | nil => intro acc; rfl
  | cons p t ih =>
    intro acc
    simp only [List.foldl_cons]
    rw [ih, combineInto_steps]

theorem foldl_combineStep_grid (pg : ℕ → ℕ → ℤ) :
    ∀ (l : List (ℕ × ℕ × ℤ)) (c : DrumPattern) (s d : ℕ),
      (∀ x ∈ l, x.2.2 = pg x.1 x.2.1) →
      (l.foldl combineStep c).grid s d =
        if (∃ x ∈ l, x.1 = s ∧ x.2.1 = d) ∧ s < c.steps
        then max (c.grid s d) (pg s d) else c.grid s d := by
  intro l
  induction l with
  | nil =>
    intro c s d _
    simp
  | cons x t ih =>
    intro c s d hval
    simp only [List.foldl_cons]
    rw [ih (combineStep c x) s d (fun y hy => hval y (List.mem_cons_of_mem x hy))]
    have hx : x.2.2 = pg x.1 x.2.1 := hval x (List.mem_cons_self x t)
    by_cases hc : x.1 = s ∧ x.2.1 = d
    · obtain ⟨hc1, hc2⟩ := hc
      subst hc1
      subst hc2
      have hex : ∃ y ∈ x :: t, y.1 = x.1 ∧ y.2.1 = x.2.1 :=
        ⟨x, List.mem_cons_self x t, rfl, rfl⟩
      by_cases hlt : x.1 < c.steps
      · have hgrid : (combineStep c x).grid x.1 x.2.1 = max (c.grid x.1 x.2.1) (pg x.1 x.2.1) := by
          unfold combineStep
          rw [if_pos hlt, gridSet_grid, if_pos ⟨rfl, rfl⟩, hx]
        rw [combineStep_steps, hgrid]
        conv_rhs => rw [if_pos (show (∃ y ∈ x :: t, y.1 = x.1 ∧ y.2.1 = x.2.1) ∧
          x.1 < c.steps from ⟨hex, hlt⟩)]
        split
        · rw [max_assoc, max_self]
        · rfl
      · have hgrid : combineStep c x = c := by
          unfold combineStep
          rw [if_neg hlt]
        rw [hgrid, if_neg (by tauto), if_neg (by tauto)]
    · have hgrid : (combineStep c x).grid s d = c.grid s d := by
        unfold combineStep
        split
        · rw [gridSet_grid, if_neg (by tauto)]
        · rfl
      have hiff : (∃ y ∈ x :: t, y.1 = s ∧ y.2.1 = d) ↔
          (∃ y ∈ t, y.1 = s ∧ y.2.1 = d) := by
        constructor
        · rintro ⟨y, hy, hy1, hy2⟩
          rcases List.mem_cons.mp hy with h | h
          · exact absurd ⟨h ▸ hy1, h ▸ hy2⟩ hc
          · exact ⟨y, h, hy1, hy2⟩
        · rintro ⟨y, hy, hy1, hy2⟩
          exact ⟨y, List.mem_cons_of_mem x hy, hy1, hy2⟩
      rw [combineStep_steps, hgrid]
      simp only [hiff]

theorem combineInto_grid (c p : DrumPattern) (s d : ℕ) :
    (combineInto c p).grid s d =
      if (s < p.steps ∧ d < p.numDrums ∧ 0 < p.grid s d) ∧ s < c.steps
      then max (c.grid s d) (p.grid s d) else c.grid s d := by
  unfold combineInto
  rw [foldl_combineStep_grid p.grid _ c s d (fun x hx => (mem_getHits.mp hx).2.2.2)]
  have hiff : (∃ x ∈ getHits p, x.1 = s ∧ x.2.1 = d) ↔
      (s < p.steps ∧ d < p.numDrums ∧ 0 < p.grid s d) := by
    constructor
    · rintro ⟨x, hx, h1, h2⟩
      have hm := mem_getHits.mp hx
      rw [h1, h2] at hm
      exact ⟨hm.1, hm.2.1, hm.2.2.1⟩
    · intro h
      exact ⟨(s, d, p.grid s d), mem_getHits.mpr ⟨h.1, h.2.1, h.2.2, rfl⟩, rfl, rfl⟩
  simp only [hiff]

theorem combineInto_grid_spec (c p : DrumPattern) (s d : ℕ)
    (hcnn : 0 ≤ c.grid s d) (hp : VelOK p) (hdp : d < p.numDrums)
    (hs : s < c.steps) :
    (combineInto c p).grid s d
      = max (c.grid s d) (if s < p.steps then p.grid s d else 0) := by
  rw [combineInto_grid]
  by_cases h1 : s < p.steps
  · by_cases h2 : 0 < p.grid s d
    · rw [if_pos ⟨⟨h1, hdp, h2⟩, hs⟩, if_pos h1]
    · have hz : p.grid s d = 0 := le_antisymm (by omega) (hp s d).1
      rw [if_neg (by tauto), if_pos h1, hz]
      omega
  · rw [if_neg (by tauto), if_neg h1]
    omega

theorem foldl_combineInto_grid :
    ∀ (ps : List DrumPattern) (acc : DrumPattern) (s d : ℕ),
      VelOK acc → (∀ p ∈ ps, VelOK p) → (∀ p ∈ ps, p.numDrums = 11) →
      s < acc.steps → d < 11 →
      (ps.foldl combineInto acc).grid s d =
        ps.foldl (fun m p => max m (if s < p.steps then p.grid s d else 0))
          (acc.grid s d) := by
  intro ps
  induction ps with
  | nil => intros; rfl
  | cons p t ih =>
    intro acc s d hacc hv hd hs hd11
    simp only [List.foldl_cons]
    rw [ih (combineInto acc p) s d
      (velOK_combineInto hacc (hv p (List.mem_cons_self p t)))
      (fun q hq => hv q (List.mem_cons_of_mem p hq))
      (fun q hq => hd q (List.mem_cons_of_mem p hq))
      (by rw [combineInto_steps]; exact hs) hd11]
    have hdp : d < p.numDrums := by
      rw [hd p (List.mem_cons_self p t)]
      exact hd11
    rw [combineInto_grid_spec acc p s d (hacc s d).1
      (hv p (List.mem_cons_self p t)) hdp hs]

theorem adsrEnv1_mem (aS i : ℕ) : 0 ≤ adsrEnv1 aS i ∧ adsrEnv1 aS i ≤ 1 := by
  unfold adsrEnv1
  split
  · rename_i h
    exact linspaceVal_mem aS i (by norm_num) (by norm_num) (by norm_num) (by norm_num) h.2
  · norm_num

theorem adsrEnv2_mem (aS dS num : ℕ) {sustain : ℚ} (hs0 : 0 ≤ sustain)
    (hs1 : sustain ≤ 1) (i : ℕ) :
    0 ≤ adsrEnv2 aS dS num sustain i ∧ adsrEnv2 aS dS num sustain i ≤ 1 := by
  unfold adsrEnv2
  split
  · rename_i h
    exact linspaceVal_mem dS (i - aS) (by norm_num) (by norm_num) hs0 hs1 (by omega)
  · exact adsrEnv1_mem aS i

theorem adsrEnv3_mem (aS dS sEnd num : ℕ) {sustain : ℚ} (hs0 : 0 ≤ sustain)
    (hs1 : sustain ≤ 1) (i : ℕ) :
    0 ≤ adsrEnv3 aS dS sEnd num sustain i ∧ adsrEnv3 aS dS sEnd num sustain i ≤ 1 := by
  unfold adsrEnv3
  split
  · exact ⟨hs0, hs1⟩
  · exact adsrEnv2_mem aS dS num hs0 hs1 i

theorem adsrStartLevel_mem (aS dS sEnd num : ℕ) {sustain : ℚ} (hs0 : 0 ≤ sustain)
    (hs1 : sustain ≤ 1) :
    0 ≤ adsrStartLevel aS dS sEnd num sustain ∧
      adsrStartLevel aS dS sEnd num sustain ≤ 1 := by
  unfold adsrStartLevel
  split
  · exact adsrEnv3_mem aS dS sEnd num hs0 hs1 _
  · exact ⟨hs0, hs1⟩

theorem adsrEnv4_mem (aS dS rS sEnd num : ℕ) {sustain : ℚ} (hs0 : 0 ≤ sustain)
    (hs1 : sustain ≤ 1) (i : ℕ) :
    0 ≤ adsrEnv4 aS dS rS sEnd num sustain i ∧
      adsrEnv4 aS dS rS sEnd num sustain i ≤ 1 := by
  unfold adsrEnv4
  split
  · rename_i h
    have hsl := adsrStartLevel_mem aS dS sEnd num hs0 hs1
    exact linspaceVal_mem _ _ hsl.1 hsl.2 (by norm_num) (by norm_num) (by omega)
  · exact adsrEnv3_mem aS dS sEnd num hs0 hs1 i

theorem mixBuffer_length (drum bass lead : List ℚ) :
    (mixBuffer drum bass lead).length
      = max drum.length (max bass.length lead.length) := by
  unfold mixBuffer
  simp [padTo_length]

theorem mixBuffer_getD (drum bass lead : List ℚ) (i : ℕ) :
    (mixBuffer drum bass lead).getD i 0
      = drum.getD i 0 * 1 + bass.getD i 0 * (3/4) + lead.getD i 0 * (11/20) := by
  set n := max drum.length (max bass.length lead.length) with hn
  by_cases hi : i < n
  · unfold mixBuffer
    rw [← hn]
    rw [zipWith_add_getD _ _ (by simp [padTo_length]),
      zipWith_add_getD _ _ (by simp [padTo_length]),
      map_mul_getD, map_mul_getD, map_mul_getD,
      padTo_getD _ _ _ hi, padTo_getD _ _ _ hi, padTo_getD _ _ _ hi]
  · have hlen : (mixBuffer drum bass lead).length ≤ i := by
      rw [mixBuffer_length, ← hn]; omega
    rw [getD_out hlen, getD_out (by omega : drum.length ≤ i),
      getD_out (by omega : bass.length ≤ i), getD_out (by omega : lead.length ≤ i)]
    norm_num

/-! ## Claim theorems -/

/-- C1: the render pipeline is NOT a function of (descriptors, seed) alone —
the NOISE waveform reads the unseeded numpy global generator, which
`random.seed(seed)` never touches.  With every engine-controlled input equal
(sample rate, frequency, duration, phase, waveform), two runs whose numpy
stream states differ produce the buffers [0] and [1] respectively — distinct
since 0 < 1 — so two renders of the same descriptor record and seed are not
bit-identical. -/
theorem c1_noise_ignores_seed :
    oscGenerate 44100 0 id id id id (fun _ => 0) 440 (1/44100) 0 WaveformType.noise
      = [0] ∧
    oscGenerate 44100 0 id id id id (fun _ => 1) 440 (1/44100) 0 WaveformType.noise
      = [1] ∧
    ((0 : ℚ) < 1) := by
  have h1 : oscSamples 44100 (1/44100) = 1 := by
    unfold oscSamples
    norm_num [pyInt]
  have h2 : List.range 1 = [0] := rfl
  refine ⟨?_, ?_, by norm_num⟩ <;>
    · simp only [oscGenerate]
      rw [h1, h2]
      simp

/-- C3 (amended): the SynthConfig tempo equals doubling below 100, then
truncating toward zero to an integer (Python `int`), then clamping into
[130,180]; on integer tempos this agrees with the claim's
double-then-clamp formula, and 90 ↦ 180, 128 ↦ 130, 200 ↦ 180. -/
theorem c3_tempo_mapping :
    (∀ t : ℚ, forcedTempo t = claimTempoTrunc t) ∧
    (∀ k : ℤ, (forcedTempo (k : ℚ) : ℚ) = claimTempoSpec (k : ℚ)) ∧
    forcedTempo 90 = 180 ∧ forcedTempo 128 = 130 ∧ forcedTempo 200 = 180 := by
  refine ⟨fun t => rfl, ?_,
    by norm_num [forcedTempo, pyInt, max_def, min_def],
    by norm_num [forcedTempo, pyInt, max_def, min_def],
    by norm_num [forcedTempo, pyInt, max_def, min_def]⟩
  intro k
  simp only [forcedTempo, claimTempoSpec]
  by_cases h : (k : ℚ) < 100
  · rw [if_pos h]
    have h2 : (k : ℚ) * 2 = ((k * 2 : ℤ) : ℚ) := by push_cast; ring
    rw [h2, pyInt_intCast]
    push_cast
    ring
  · rw [if_neg h, pyInt_intCast]
    push_cast
    ring

/-- C3 counterexample: at input tempo 135.5 the engine stores 135 (truncation
before clamping), while the claim's double-then-clamp formula gives 135.5,
so the claim as stated fails on non-integer tempos. -/
theorem c3_counterexample :
    forcedTempo (271/2) = 135 ∧ claimTempoSpec (271/2) = 271/2 ∧
      ((135 : ℚ) < 271/2) := by
  have h1 : forcedTempo (271/2) = 135 := by
    norm_num [forcedTempo, pyInt, max_def, min_def]
  have h2 : claimTempoSpec (271/2) = 271/2 := by
    norm_num [claimTempoSpec, max_def, min_def]
  exact ⟨h1, h2, by norm_num⟩

/-- C4: `add_hit` stores the velocity clamped to [0,127] when the step is in
range and leaves the pattern completely unchanged (no exception) otherwise;
consequently every pattern reachable via the constructor, the library
constructors, the variation operators, `combine_patterns` and arbitrary
`add_hit`/`remove_hit` sequences has every grid cell's velocity in [0,127]. -/
theorem c4_add_hit_contract :
    (∀ (p : DrumPattern) (s : ℤ) (dt : ℕ) (v : ℤ),
      (0 ≤ s ∧ s < (p.steps : ℤ) →
        (addHit p s dt v).grid s.toNat dt = min (max v 0) 127 ∧
        0 ≤ (addHit p s dt v).grid s.toNat dt ∧
        (addHit p s dt v).grid s.toNat dt ≤ 127) ∧
      (¬(0 ≤ s ∧ s < (p.steps : ℤ)) → addHit p s dt v = p)) ∧
    (∀ p, Reachable p → VelOK p) := by
  constructor
  · intro p s dt v
    constructor
    · intro h
      have he : (addHit p s dt v).grid s.toNat dt = min (max v 0) 127 := by
        unfold addHit
        rw [if_pos h, gridSet_grid, if_pos ⟨rfl, rfl⟩]
      exact ⟨he, by rw [he]; omega, by rw [he]; omega⟩
    · intro h
      unfold addHit
      rw [if_neg h]
  · intro p hp
    induction hp with
    | init steps numDrums => exact velOK_init _ _
    | addHit p s dt v _ ih => exact velOK_addHit ih _ _ _
    | removeHit p s dt _ ih => exact velOK_removeHit ih _ _
    | fourOnFloor steps accentEvery => exact velOK_fourOnFloor _ _
    | syncopatedHihat steps density r1 r2 r3 v1 v2 =>
      exact velOK_syncopatedHihat _ _ _ _ _ _ _
    | snareClapPattern steps => exact velOK_snareClapPattern _
    | buildUpPattern steps r => exact velOK_buildUpPattern _ _
    | dropPattern steps => exact velOK_dropPattern _
    | breakbeat steps v1 v2 v3 => exact velOK_breakbeat _ _ _ _
    | combine ps h ih => exact velOK_combinePatterns ps ih
    | addFills pat prob r tom v _ ih => exact velOK_addFills ih _ _ _ _
    | velocityVariation pat amount r _ ih => exact velOK_velocityVariation _ _ _
    | shiftPattern pat shift _ ih => exact velOK_shiftPattern ih _
    | reversePattern pat _ ih => exact velOK_reversePattern ih

/-- C4 witness: in-range write of velocity 200 is stored clamped to 127,
an out-of-range write at step −1 is the identity, and a concrete
library-constructed pattern satisfies the invariant. -/
theorem c4_add_hit_contract_witness :
    ((0 : ℤ) ≤ 3 ∧ (3 : ℤ) < ((DrumPattern.init 16 11).steps : ℤ)) ∧
    (addHit (DrumPattern.init 16 11) 3 0 200).grid 3 0 = 127 ∧
    (¬((0 : ℤ) ≤ -1 ∧ (-1 : ℤ) < ((DrumPattern.init 16 11).steps : ℤ))) ∧
    addHit (DrumPattern.init 16 11) (-1) 0 200 = DrumPattern.init 16 11 ∧
    VelOK (fourOnFloor 16 4) := by
  have h := c4_add_hit_contract
  have hin : (0 : ℤ) ≤ 3 ∧ (3 : ℤ) < ((DrumPattern.init 16 11).steps : ℤ) :=
    ⟨by norm_num, by norm_num [DrumPattern.init]⟩
  have hout : ¬((0 : ℤ) ≤ -1 ∧ (-1 : ℤ) < ((DrumPattern.init 16 11).steps : ℤ)) := by
    norm_num
  refine ⟨hin, ?_, hout, (h.1 _ _ _ _).2 hout, h.2 _ (Reachable.fourOnFloor 16 4)⟩
  show (addHit (DrumPattern.init 16 11) 3 0 200).grid ((3 : ℤ).toNat) 0 = 127
  exact ((h.1 _ 3 0 200).1 hin).1.trans (by omega)

/-- C5 (amended): energy and danceability are lower-bounded at 0.7
(`max(0.7, ·)`) but never upper-clamped, and valence is stored unchanged
with no clamping at all; no descriptor value is rejected — the config is a
total function of the inputs.  Inputs already within bounds stay within
[0,1] after storage. -/
theorem c5_descriptor_storage :
    ∀ energy valence dance tempoIn : ℚ,
      (mkSynthConfig tempoIn energy valence dance).energy = max (7/10) energy ∧
      (mkSynthConfig tempoIn energy valence dance).valence = valence ∧
      (mkSynthConfig tempoIn energy valence dance).danceability = max (7/10) dance ∧
      (energy ≤ 1 → 0 ≤ (mkSynthConfig tempoIn energy valence dance).energy ∧
        (mkSynthConfig tempoIn energy valence dance).energy ≤ 1) ∧
      (0 ≤ valence → valence ≤ 1 →
        0 ≤ (mkSynthConfig tempoIn energy valence dance).valence ∧
        (mkSynthConfig tempoIn energy valence dance).valence ≤ 1) ∧
      (dance ≤ 1 → 0 ≤ (mkSynthConfig tempoIn energy valence dance).danceability ∧
        (mkSynthConfig tempoIn energy valence dance).danceability ≤ 1) := by
  intro energy valence dance tempoIn
  refine ⟨rfl, rfl, rfl, ?_, ?_, ?_⟩
  · intro h
    constructor
    · exact le_trans (by norm_num) (le_max_left (7/10) energy)
    · exact max_le (by norm_num) h
  · intro h0 h1
    exact ⟨h0, h1⟩
  · intro h
    constructor
    · exact le_trans (by norm_num) (le_max_left (7/10) dance)
    · exact max_le (by norm_num) h

/-- C5 witness: in-range inputs (energy 1/2, valence 1/2, danceability 1)
are stored inside [0,1]. -/
theorem c5_descriptor_storage_witness :
    ((1 : ℚ)/2 ≤ 1) ∧ ((0 : ℚ) ≤ 1/2) ∧ ((1 : ℚ) ≤ 1) ∧
    (0 ≤ (mkSynthConfig 128 (1/2) (1/2) 1).energy ∧
      (mkSynthConfig 128 (1/2) (1/2) 1).energy ≤ 1) ∧
    (0 ≤ (mkSynthConfig 128 (1/2) (1/2) 1).valence ∧
      (mkSynthConfig 128 (1/2) (1/2) 1).valence ≤ 1) ∧
    (0 ≤ (mkSynthConfig 128 (1/2) (1/2) 1).danceability ∧
      (mkSynthConfig 128 (1/2) (1/2) 1).danceability ≤ 1) :=
  ⟨by norm_num, by norm_num, le_refl 1,
    (c5_descriptor_storage (1/2) (1/2) 1 128).2.2.2.1 (by norm_num),
    (c5_descriptor_storage (1/2) (1/2) 1 128).2.2.2.2.1 (by norm_num) (by norm_num),
    (c5_descriptor_storage (1/2) (1/2) 1 128).2.2.2.2.2 (by norm_num)⟩

/-- C5 counterexample: energy 1.5 is stored as 1.5 (not clamped to 1) and
valence −0.5 is stored as −0.5 (not clamped to 0), so out-of-range values are
NOT clamped into [0,1] before being stored in the SynthConfig. -/
theorem c5_counterexample :
    (mkSynthConfig 128 (3/2) (-1/2) (1/2)).energy = 3/2 ∧ clamp01 (3/2) = 1 ∧
      ((1 : ℚ) < 3/2) ∧
    (mkSynthConfig 128 (3/2) (-1/2) (1/2)).valence = -1/2 ∧ clamp01 (-1/2) = 0 ∧
      ((-1 : ℚ)/2 < 0) := by
  refine ⟨?_, ?_, by norm_num, ?_, ?_, by norm_num⟩
  · norm_num [mkSynthConfig, max_def]
  · norm_num [clamp01, max_def, min_def]
  · norm_num [mkSynthConfig]
  · norm_num [clamp01, max_def, min_def]

/-- C2: the final mix pads the three voice buffers to the longest length and
weight-sums them with weights 1.0 / 0.75 / 0.55; a zero-peak sum skips
normalization and passes through unchanged; and after the `tanh` limiter
(drive 1.5, ceiling 0.92) every sample has absolute value at most 0.92 and
so lies in [-1,1].  `tanhF` is `np.tanh`, whose outputs have magnitude at
most 1. -/
theorem c2_final_mix (tanhF : ℚ → ℚ) (hth : ∀ x, |tanhF x| ≤ 1)
    (drum bass lead : List ℚ) :
    (mixBuffer drum bass lead).length
      = max drum.length (max bass.length lead.length) ∧
    (∀ i, (mixBuffer drum bass lead).getD i 0
      = drum.getD i 0 * 1 + bass.getD i 0 * (3/4) + lead.getD i 0 * (11/20)) ∧
    (peak (mixBuffer drum bass lead) = 0 →
      normalizeStage (mixBuffer drum bass lead) = mixBuffer drum bass lead) ∧
    (∀ x ∈ finalMix tanhF drum bass lead, |x| ≤ 92/100 ∧ -1 ≤ x ∧ x ≤ 1) := by
  refine ⟨mixBuffer_length drum bass lead, mixBuffer_getD drum bass lead, ?_, ?_⟩
  · intro h
    simp [normalizeStage, h]
  · intro x hx
    unfold finalMix limitStage at hx
    obtain ⟨y, _, hy⟩ := List.mem_map.mp hx
    have hb : |x| ≤ 92/100 := by
      rw [← hy, abs_mul]
      have h1 : |tanhF (y * (3/2))| ≤ 1 := hth _
      have h2 : |(92 : ℚ)/100| = 92/100 := by norm_num
      rw [h2]
      nlinarith [abs_nonneg (tanhF (y * (3/2)))]
    have := abs_le.mp hb
    exact ⟨hb, by linarith [this.1], by linarith [this.2]⟩

/-- C2 witness: concrete buffers and a concrete bounded limiter function. -/
theorem c2_final_mix_witness :
    (∀ x : ℚ, |(fun _ : ℚ => (0 : ℚ)) x| ≤ 1) ∧
    (∀ x ∈ finalMix (fun _ : ℚ => (0 : ℚ)) [1] [] [],
      |x| ≤ 92/100 ∧ -1 ≤ x ∧ x ≤ 1) :=
  ⟨fun _ => by simp,
    (c2_final_mix (fun _ => 0) (fun _ => by simp) [1] [] []).2.2.2⟩

/-- C6: with an empty note list the engine takes the `np.zeros(1)` branch,
yielding a silent buffer of exactly one sample (while the underlying
`synthesize_midi_notes` would return a length-0 array), and the downstream
`pad` of the mix stage turns it into pure zero padding of any mix length. -/
theorem c6_empty_notes_silence :
    ∀ (sr : ℕ) (synthF : ℤ → ℚ → ℚ → List ℚ),
      voiceBuffer sr synthF [] = List.replicate 1 0 ∧
      (voiceBuffer sr synthF []).length = 1 ∧
      (∀ x ∈ voiceBuffer sr synthF [], x = 0) ∧
      synthesizeMidiNotes sr synthF [] = [] ∧
      (∀ L, padTo L (voiceBuffer sr synthF []) = List.replicate L 0) := by
  intro sr synthF
  refine ⟨rfl, rfl, ?_, rfl, ?_⟩
  · intro x hx
    simpa [voiceBuffer] using hx
  · intro L
    exact padTo_single_zero L

/-- C7 (amended): `Oscillator.generate` returns exactly
`int(sampleRate × duration)` samples — Python truncation toward zero, not
`round` — for every one of the five waveforms. -/
theorem c7_osc_length :
    ∀ (sr : ℕ) (piQ : ℚ) (sinF sqF sawF triF : ℚ → ℚ) (noiseS : ℕ → ℚ)
      (frequency dur phase : ℚ) (w : WaveformType),
      (oscGenerate sr piQ sinF sqF sawF triF noiseS frequency dur phase w).length
        = (pyInt ((sr : ℚ) * dur)).toNat := by
  intro sr piQ sinF sqF sawF triF noiseS frequency dur phase w
  cases w <;> simp [oscGenerate, oscSamples]

/-- C7 counterexample: at sample rate 44100 and duration 1/9000 s the product
is 4.9 samples; the code returns 4 samples (truncation) while the claim's
`round` gives 5. -/
theorem c7_counterexample :
    (oscGenerate 44100 0 id id id id (fun _ => 0) 440 (1/9000) 0
        WaveformType.sine).length = 4 ∧
      claimOscLenSpec 44100 (1/9000) = 5 ∧ ((4 : ℤ) < 5) := by
  refine ⟨?_, ?_, by decide⟩
  · simp only [oscGenerate, List.length_map, List.length_range]
    have h4 : pyInt (((44100 : ℕ) : ℚ) * (1/9000)) = 4 := by norm_num [pyInt]
    unfold oscSamples
    rw [h4]
    rfl
  · unfold claimOscLenSpec
    norm_num [round_eq]

/-- C8 (amended): provided `int(attack × sampleRate)` does not exceed the
total sample count `int(sampleRate × totalDuration)` — otherwise the numpy
slice assignment `envelope[:attack_samples] = np.linspace(0, 1, attack_samples)`
raises a broadcast error instead of clipping — `ADSR.generate` returns an
envelope of exactly `int(sampleRate × totalDuration)` samples, each in [0,1],
for all attack/decay/release ≥ 0, sustain in [0,1] and
totalDuration ≥ noteDuration ≥ 0. -/
theorem c8_adsr_envelope (attack decay sustain release : ℚ) (sr : ℕ)
    (duration noteDur : ℚ)
    (ha : 0 ≤ attack) (hd : 0 ≤ decay) (hr : 0 ≤ release)
    (hs0 : 0 ≤ sustain) (hs1 : sustain ≤ 1)
    (hn0 : 0 ≤ noteDur) (hnd : noteDur ≤ duration)
    (hA : (pyInt (attack * (sr : ℚ))).toNat ≤ (pyInt ((sr : ℚ) * duration)).toNat) :
    ∃ l, adsrGenerate attack decay sustain release sr duration noteDur = some l ∧
      l.length = (pyInt ((sr : ℚ) * duration)).toNat ∧
      ∀ x ∈ l, 0 ≤ x ∧ x ≤ 1 := by
  simp only [adsrGenerate]
  rw [if_neg (by omega)]
  refine ⟨_, rfl, by simp, ?_⟩
  intro x hx
  obtain ⟨i, _, hi⟩ := List.mem_map.mp hx
  rw [← hi]
  exact adsrEnv4_mem _ _ _ _ _ hs0 hs1 i

/-- C8 witness: a concrete in-range envelope request (attack 0.2 s at 10 Hz
sample rate over a 1 s note). -/
theorem c8_adsr_envelope_witness :
    ((0 : ℚ) ≤ 1/5) ∧ ((0 : ℚ) ≤ 3/10) ∧ ((0 : ℚ) ≤ 1/5) ∧
    ((0 : ℚ) ≤ 1/2) ∧ ((1 : ℚ)/2 ≤ 1) ∧ ((0 : ℚ) ≤ 4/5) ∧ ((4 : ℚ)/5 ≤ 1) ∧
    ((pyInt ((1/5 : ℚ) * ((10 : ℕ) : ℚ))).toNat
      ≤ (pyInt (((10 : ℕ) : ℚ) * 1)).toNat) ∧
    (∃ l, adsrGenerate (1/5) (3/10) (1/2) (1/5) 10 1 (4/5) = some l ∧
      l.length = (pyInt (((10 : ℕ) : ℚ) * 1)).toNat ∧
      ∀ x ∈ l, 0 ≤ x ∧ x ≤ 1) :=
  ⟨by norm_num, by norm_num, by norm_num, by norm_num, by norm_num, by norm_num,
    by norm_num, by norm_num [pyInt],
    c8_adsr_envelope (1/5) (3/10) (1/2) (1/5) 10 1 (4/5) (by norm_num) (by norm_num)
      (by norm_num) (by norm_num) (by norm_num) (by norm_num) (by norm_num)
      (by norm_num [pyInt])⟩

/-- C8 counterexample: attack 2 s on a 1 s envelope (sample rate 10) makes
`attack_samples = 20 > num_samples = 10`, and the numpy assignment raises a
broadcast error (modelled as `none`) — the code does not clip the attack at
the envelope boundary as the claim states. -/
theorem c8_counterexample :
    adsrGenerate 2 (1/10) (7/10) (1/5) 10 1 1 = none := by
  norm_num [adsrGenerate, pyInt]

/-- C9: `combine_patterns` returns a pattern whose step count is the largest
input step count and whose every cell holds the maximum (not the sum) of that
cell's velocities over all inputs, a shorter input contributing no hit beyond
its own length. -/
theorem c9_combine_patterns (ps : List DrumPattern) (hne : ps ≠ [])
    (hv : ∀ p ∈ ps, VelOK p) (hd : ∀ p ∈ ps, p.numDrums = 11) :
    (combinePatterns ps).steps = maxSteps ps ∧
    ∀ s d, s < maxSteps ps → d < 11 →
      (combinePatterns ps).grid s d = cellMaxSpec ps s d := by
  cases ps with
  | nil => exact absurd rfl hne
  | cons p t =>
    have hcp : combinePatterns (p :: t)
        = (p :: t).foldl combineInto (DrumPattern.init (maxSteps (p :: t)) 11) := rfl
    constructor
    · rw [hcp, foldl_combineInto_steps]
      rfl
    · intro s d hs hd11
      rw [hcp, foldl_combineInto_grid (p :: t)
        (DrumPattern.init (maxSteps (p :: t)) 11) s d (velOK_init _ _) hv hd hs hd11]
      rfl

/-- C9 witness: combining a pattern with velocity 80 at (step 0, KICK) and
one with velocity 110 at the same cell yields 110 there — max, not sum. -/
theorem c9_combine_patterns_witness :
    ([patA, patB] ≠ []) ∧ (∀ p ∈ [patA, patB], VelOK p) ∧
    (∀ p ∈ [patA, patB], p.numDrums = 11) ∧
    (combinePatterns [patA, patB]).steps = 16 ∧
    (combinePatterns [patA, patB]).grid 0 KICK = 110 := by
  have hne : [patA, patB] ≠ [] := by simp
  have hv : ∀ p ∈ [patA, patB], VelOK p := by
    intro p hp
    simp only [List.mem_cons, List.not_mem_nil, or_false] at hp
    rcases hp with rfl | rfl
    · exact velOK_addHit (velOK_init 16 11) _ _ _
    · exact velOK_addHit (velOK_init 16 11) _ _ _
  have hd : ∀ p ∈ [patA, patB], p.numDrums = 11 := by
    intro p hp
    simp only [List.mem_cons, List.not_mem_nil, or_false] at hp
    rcases hp with rfl | rfl <;> rfl
  have h := c9_combine_patterns [patA, patB] hne hv hd
  have hms : maxSteps [patA, patB] = 16 := rfl
  refine ⟨hne, hv, hd, by rw [h.1, hms], ?_⟩
  have h2 := h.2 0 KICK (by rw [hms]; norm_num) (by norm_num [KICK])
  rw [h2]
  show cellMaxSpec [patA, patB] 0 KICK = 110
  have hga : patA.grid 0 KICK = 80 := by
    unfold patA addHit
    rw [if_pos (by norm_num [DrumPattern.init]), gridSet_grid, if_pos ⟨rfl, rfl⟩]
    omega
  have hgb : patB.grid 0 KICK = 110 := by
    unfold patB addHit
    rw [if_pos (by norm_num [DrumPattern.init]), gridSet_grid, if_pos ⟨rfl, rfl⟩]
    omega
  have hsa : patA.steps = 16 := rfl
  have hsb : patB.steps = 16 := rfl
  unfold cellMaxSpec
  simp only [List.foldl_cons, List.foldl_nil, hsa, hsb]
  rw [if_pos (by norm_num), if_pos (by norm_num), hga, hgb]
  omega

/-- C10: `sidechain_compress` first cuts both buffers to their common length
and returns the audio multiplied by a gain envelope of that same length, so
the output length is `min(len(audio), len(trigger))` — the audio tail beyond
a shorter trigger is discarded, for every threshold/ratio/attack/release. -/
theorem c10_sidechain_length :
    ∀ (expF : ℚ → ℚ) (sr : ℕ) (audio trigger : List ℚ)
      (thr rat attack release : ℚ),
      (sidechainCompress expF sr audio trigger thr rat attack release).length
        = min audio.length trigger.length := by
  intro expF sr audio trigger thr rat attack release
  unfold sidechainCompress
  simp [sidechainGain_length]

end MLSync
